import Mathlib

/-!
Verification of the code-execution job subsystem of the cognicodeide backend.

The development shallowly embeds, from the Python source:
  * `ExecutorService` (backend/app/services/executor_service.py):
    `get_default_commands`, `execute_command`, `write_project_files`
    (as a filesystem-event trace) and `run_project`;
  * the result write-back of `ExecutionQueueManager._execute_job`
    (backend/app/services/execution_queue.py) and of the ARQ worker
    `execute_run_job` (backend/app/workers/__init__.py);
  * the admission path `enqueue_execution`
    (backend/app/routers/execute.py) and the polled view
    `get_execution_result`.

Subprocess execution is modelled by an oracle (`ProcBehavior`) describing
what the spawned process does: terminate normally with outputs and an exit
code, exceed the wall-clock timeout, or make `subprocess.run` raise.
Machine time is modelled as natural-number ticks; Python `None` as
`Option.none`; Python string truthiness via `pyTruthy`.
-/

set_option linter.unusedVariables false

namespace CogniCode

/-- What a spawned subprocess does: terminate normally with outputs, exit
code and elapsed wall time; exceed the wall-clock timeout
(`subprocess.TimeoutExpired`); or raise another exception in
`subprocess.run`. -/
inductive ProcBehavior where
  | normal (stdout stderr : String) (exitCode : Int) (elapsed : Nat)
  | timedOut
  | raised (msg : String) (elapsed : Nat)
deriving DecidableEq, Repr

/-- Result dict of `ExecutorService.execute_command`. -/
structure CmdResult where
  stdout : String
  stderr : String
  exitCode : Int
  executionTime : Nat
  status : String
deriving DecidableEq, Repr

/-- `ExecutorService.execute_command(command, work_dir, timeout, input_data)`:
runs the command and classifies the result; on `TimeoutExpired` the exit
code is the sentinel `-1` and elapsed time is the timeout; any other
exception also yields exit code `-1` with status `error`. -/
def execute_command (behavior : ProcBehavior) (timeout : Nat) : CmdResult :=
  match behavior with
  | .normal out err code t =>
      { stdout := out, stderr := err, exitCode := code, executionTime := t,
        status := if code = 0 then "success" else "error" }
  | .timedOut =>
      { stdout := "",
        stderr := "Command timed out after " ++ toString timeout ++ " seconds",
        exitCode := -1, executionTime := timeout, status := "timeout" }
  | .raised msg t =>
      { stdout := "", stderr := msg, exitCode := -1, executionTime := t,
        status := "error" }

/-- One submitted file: `{name, path, content, is_main}`. -/
structure PFile where
  name : String
  path : String
  content : String
  isMain : Bool
deriving DecidableEq, Repr

/-- `str.lower()`, written over the character list so that it reduces in
the kernel. -/
def strLower (s : String) : String :=
  String.mk (s.data.map Char.toLower)

/-- `ExecutorService.get_default_commands(language)`: default
`(build, run)` commands per (lower-cased) language, `(None, None)` for an
unknown language. -/
def get_default_commands (language : String) : Option String × Option String :=
  let l := strLower language
  if l = "python" then (some "pip install -r requirements.txt", some "python main.py")
  else if l = "java" then (some "javac *.java", some "java Main")
  else if l = "c" then (some "gcc *.c -o app", some "./app")
  else if l = "cpp" then (some "g++ *.cpp -o app", some "./app")
  else (none, none)

/-- Python truthiness of an optional string: `None` and `""` are falsy. -/
def pyTruthy : Option String → Bool
  | none => false
  | some s => s ≠ ""

/-- Python `a or b` on optional strings, as used in
`buildCmd = build_command or defaults['build']`: the left value wins only
when it is truthy (so an explicit empty string falls through to the
default). -/
def pyOrStr (explicit dflt : Option String) : Option String :=
  if pyTruthy explicit then explicit else dflt

/-- Python `needle in hay` on lists of characters. -/
def containsSeq (needle : List Char) : List Char → Bool
  | [] => needle.isEmpty
  | c :: rest => needle.isPrefixOf (c :: rest) || containsSeq needle rest

/-- Python `needle in hay` on strings. -/
def strContainsSub (hay needle : String) : Bool :=
  containsSeq needle.toList hay.toList

/-- `os.path.exists(os.path.join(work_dir, 'requirements.txt'))` after
`write_project_files`: a `requirements.txt` is present exactly when a
submitted file has that name. -/
def hasRequirements (files : List PFile) : Bool :=
  files.any (fun f => f.name = "requirements.txt")

/-- The effective build command of `run_project`:
`buildCmd = build_command or defaults['build']`. -/
def resolvedBuildCmd (language : String) (build_command : Option String) : Option String :=
  pyOrStr build_command (get_default_commands language).1

/-- The effective run command of `run_project`:
`runCmd = run_command or defaults['run']`. -/
def resolvedRunCmd (language : String) (run_command : Option String) : Option String :=
  pyOrStr run_command (get_default_commands language).2

/-- Whether `run_project` executes a build phase: the resolved build
command must be truthy, and for `language == 'python'` with
`'requirements.txt' in buildCmd` a `requirements.txt` file must exist in
the scratch directory (`should_build`). -/
def buildAttempted (language : String) (files : List PFile)
    (build_command : Option String) : Bool :=
  match resolvedBuildCmd language build_command with
  | none => false
  | some bcmd =>
      pyTruthy (some bcmd) &&
      (if language = "python" ∧ strContainsSub bcmd "requirements.txt" then
        hasRequirements files
      else true)

/-- The `build_result` sub-dict stored by `run_project`
(stdout/stderr/exit code/elapsed time of the build phase). -/
structure BuildResult where
  stdout : String
  stderr : String
  exitCode : Int
  executionTime : Nat
deriving DecidableEq, Repr

/-- Project a command result to the stored `build_result` fields. -/
def toBuildResult (c : CmdResult) : BuildResult :=
  ⟨c.stdout, c.stderr, c.exitCode, c.executionTime⟩

/-- Normalized result dict of `ExecutorService.run_project`. -/
structure RunOutcome where
  status : String
  stdout : String
  stderr : String
  exitCode : Int
  executionTime : Nat
  buildResult : Option BuildResult
deriving DecidableEq, Repr

/-- The run phase of `run_project`: if the resolved run command is falsy,
return the `No run command specified` error; otherwise execute it with the
30-second `MAX_EXECUTION_TIME` and classify `timeout` / `error` (non-zero
exit) / `success`. -/
def runPhase (language : String) (runCmd : Option String)
    (buildResult : Option BuildResult) (runBehavior : ProcBehavior) : RunOutcome :=
  if pyTruthy runCmd then
    let rr := execute_command runBehavior 30
    let st :=
      if rr.status = "timeout" then "timeout"
      else if rr.exitCode ≠ 0 then "error"
      else "success"
    { status := st, stdout := rr.stdout, stderr := rr.stderr,
      exitCode := rr.exitCode, executionTime := rr.executionTime,
      buildResult := buildResult }
  else
    { status := "error", stdout := "",
      stderr := "No run command specified for " ++ language,
      exitCode := -1, executionTime := 0, buildResult := buildResult }

/-- `ExecutorService.run_project(language, files, stdin, build_command,
run_command)`, with the two subprocess invocations supplied by oracles.
If a build phase applies and its exit code is non-zero, the result is
`compilation_error` carrying the build outputs (stderr prefixed
`Build failed:`) and the run phase never executes; otherwise the run phase
decides the status. -/
def run_project (language : String) (files : List PFile) (stdin : String)
    (build_command run_command : Option String)
    (buildBehavior runBehavior : ProcBehavior) : RunOutcome :=
  let runCmd := resolvedRunCmd language run_command
  if buildAttempted language files build_command then
    let br := execute_command buildBehavior 120
    if br.exitCode ≠ 0 then
      { status := "compilation_error", stdout := br.stdout,
        stderr := "Build failed:\n" ++ br.stderr, exitCode := br.exitCode,
        executionTime := 0, buildResult := some (toBuildResult br) }
    else
      runPhase language runCmd (some (toBuildResult br)) runBehavior
  else
    runPhase language runCmd none runBehavior

example :
    run_project "python" [⟨"main.py", "main.py", "print(1)", true⟩] ""
      none none (.normal "" "" 0 1) (.normal "hi\n" "" 0 2) =
    { status := "success", stdout := "hi\n", stderr := "", exitCode := 0,
      executionTime := 2, buildResult := none } := by decide

example :
    (run_project "c" [⟨"a.c", "a.c", "int", true⟩] ""
      none none (.normal "" "boom" 1 2) (.normal "" "" 0 1)).status =
    "compilation_error" := by decide

/-! ## Scratch-directory materialization (`write_project_files`), as a
filesystem-event trace -/

/-- A filesystem action taken by `run_project`: writing a file, or
removing the scratch directory tree (`shutil.rmtree`). -/
inductive FsEvent where
  | write (path : String)
  | rmtree (dir : String)
deriving DecidableEq, Repr

/-- Whether a path string is absolute (leading `/`), written over the
character list so that it reduces in the kernel. -/
def isAbsPath (name : String) : Bool :=
  match name.data with
  | '/' :: _ => true
  | _ => false

/-- `os.path.join(dir, name)` (POSIX): an absolute `name` discards `dir`. -/
def joinPath (dir name : String) : String :=
  if isAbsPath name then name else dir ++ "/" ++ name

/-- `ExecutorService.write_project_files`: each submitted file is written
at `os.path.join(work_dir, file['name'])`, in order. -/
def write_project_files (workDir : String) (files : List PFile) : List FsEvent :=
  files.map (fun f => .write (joinPath workDir f.name))

/-- The filesystem-event trace of `run_project`: the files are written
into the scratch directory, and the `finally` block removes the directory
tree on every exit path (normal return, build failure, timeout or
exception — the oracle-driven result model is total, and `execute_command`
catches every exception, so every path through the `try` body flows
through the `finally`). -/
def run_project_fs_trace (workDir : String) (files : List PFile) : List FsEvent :=
  write_project_files workDir files ++ [.rmtree workDir]

/-- Split a path into `/`-separated segments (kernel-reducible). -/
def splitSlashAux (acc : List Char) : List Char → List String
  | [] => [String.mk acc.reverse]
  | c :: rest =>
      if c = '/' then String.mk acc.reverse :: splitSlashAux [] rest
      else splitSlashAux (c :: acc) rest

/-- Segments of a path string. -/
def pathSegs (p : String) : List String :=
  splitSlashAux [] p.data

/-- POSIX-style normalization of path segments: drop empty and `.`
segments, let `..` remove the preceding segment. -/
def normalizeSegs (segs : List String) : List String :=
  segs.foldl
    (fun acc seg =>
      if seg = "" ∨ seg = "." then acc
      else if seg = ".." then acc.dropLast
      else acc ++ [seg])
    []

/-- Normalized segments of a path. -/
def normalizePath (p : String) : List String :=
  normalizeSegs (pathSegs p)

/-- Whether `path` resolves to a location inside directory `dir`. -/
def insideDir (dir path : String) : Bool :=
  (normalizePath dir).isPrefixOf (normalizePath path)

example : insideDir "/tmp/job" (joinPath "/tmp/job" "pkg/main.py") = true := by decide
example : insideDir "/tmp/job" (joinPath "/tmp/job" "../evil.py") = false := by decide

/-! ## Persisted `Run` rows and the worker write-back -/

/-- `RunStatus` enum (backend/app/models/models.py). -/
inductive RunState where
  | queued
  | running
  | success
  | error
  | timeout
  | compilationError
  | cancelled
deriving DecidableEq, Repr

/-- A state is terminal when it is neither `queued` nor `running`. -/
def RunState.isTerminal : RunState → Bool
  | .queued => false
  | .running => false
  | _ => true

/-- The columns of the persisted `Run` row that the execution subsystem
reads and writes (model of the `runs` table row). -/
structure RunRow where
  id : Nat
  attemptId : Nat
  state : RunState
  createdAt : Nat
  startedAt : Option Nat
  finishedAt : Option Nat
  buildStdout : Option String
  buildStderr : Option String
  buildExitCode : Option Int
  buildTime : Option Nat
  stdout : Option String
  stderr : Option String
  exitCode : Option Int
  runTime : Option Nat
deriving DecidableEq, Repr

/-- A freshly created `Run` row (`enqueue_execution`): state `queued`,
all phase outputs null. -/
def newRunRow (id attemptId createdAt : Nat) : RunRow :=
  { id := id, attemptId := attemptId, state := .queued, createdAt := createdAt,
    startedAt := none, finishedAt := none,
    buildStdout := none, buildStderr := none, buildExitCode := none,
    buildTime := none, stdout := none, stderr := none, exitCode := none,
    runTime := none }

/-- Terminal-state mapping of the in-process worker
(`ExecutionQueueManager._execute_job`): `timeout` and
`compilation_error` map to their states, `error` requires a non-zero exit
code, everything else is `success`. -/
def inProcessFinalStatus (r : RunOutcome) : RunState :=
  if r.status = "timeout" then .timeout
  else if r.status = "compilation_error" then .compilationError
  else if r.status = "error" ∧ r.exitCode ≠ 0 then .error
  else .success

/-- Terminal-state mapping of the distributed ARQ worker
(`execute_run_job`): a dictionary lookup with default `error`. -/
def workerFinalStatus (r : RunOutcome) : RunState :=
  if r.status = "success" then .success
  else if r.status = "error" then .error
  else if r.status = "timeout" then .timeout
  else if r.status = "compilation_error" then .compilationError
  else .error

/-- The result write-back of `_execute_job`: set the terminal state and
`finished_at`, copy the build-phase fields only when a `build_result` is
present, and copy the run-level `stdout`/`stderr`/`exit_code`/`run_time`
unconditionally from the outcome. -/
def applyResult (run : RunRow) (r : RunOutcome) (fin : Nat) : RunRow :=
  let run1 :=
    { run with state := inProcessFinalStatus r, finishedAt := some fin }
  let run2 :=
    match r.buildResult with
    | some b =>
        { run1 with
            buildStdout := some b.stdout
            buildStderr := some b.stderr
            buildExitCode := some b.exitCode
            buildTime := some b.executionTime }
    | none => run1
  { run2 with
      stdout := some r.stdout
      stderr := some r.stderr
      exitCode := some r.exitCode
      runTime := some r.executionTime }

/-- The `build_output` object of the polled view. -/
structure BuildOutputView where
  stdout : String
  stderr : String
  exitCode : Int
  executionTime : Nat
deriving DecidableEq, Repr

/-- `get_execution_result`: the polled `build_output` is populated only
when `run.build_stdout or run.build_stderr` is truthy, with `or`-defaults
for the individual fields. -/
def buildOutputView (run : RunRow) : Option BuildOutputView :=
  if pyTruthy run.buildStdout || pyTruthy run.buildStderr then
    some { stdout := run.buildStdout.getD "", stderr := run.buildStderr.getD "",
           exitCode := run.buildExitCode.getD 0,
           executionTime := run.buildTime.getD 0 }
  else none

/-! ## Helper lemmas about `run_project` -/

/-- On every `runPhase` result the two worker status mappings agree. -/
lemma finalStatus_agree_runPhase (language : String) (runCmd : Option String)
    (br : Option BuildResult) (rb : ProcBehavior) :
    workerFinalStatus (runPhase language runCmd br rb) =
      inProcessFinalStatus (runPhase language runCmd br rb) := by
  unfold runPhase
  by_cases hc : pyTruthy runCmd = true
  · simp only [hc, if_true]
    cases rb with
    | normal out err code t =>
        by_cases hz : code = 0
        · subst hz
          simp [execute_command, workerFinalStatus, inProcessFinalStatus]
        · simp [execute_command, workerFinalStatus, inProcessFinalStatus, hz]
    | timedOut =>
        simp [execute_command, workerFinalStatus, inProcessFinalStatus]
    | raised msg t =>
        simp [execute_command, workerFinalStatus, inProcessFinalStatus]
  · simp only [Bool.not_eq_true] at hc
    simp [hc, workerFinalStatus, inProcessFinalStatus]

/-- When the build phase runs and exits non-zero, `run_project` returns
the `compilation_error` record built from the build outputs. -/
lemma run_project_build_failed (language : String) (files : List PFile)
    (stdin : String) (build_command run_command : Option String)
    (bb rb : ProcBehavior)
    (hb : buildAttempted language files build_command = true)
    (hfail : (execute_command bb 120).exitCode ≠ 0) :
    run_project language files stdin build_command run_command bb rb =
      { status := "compilation_error",
        stdout := (execute_command bb 120).stdout,
        stderr := "Build failed:\n" ++ (execute_command bb 120).stderr,
        exitCode := (execute_command bb 120).exitCode,
        executionTime := 0,
        buildResult := some (toBuildResult (execute_command bb 120)) } := by
  unfold run_project
  simp [hb, hfail]

/-- When the build phase is skipped or exits zero, `run_project` is the
run phase. -/
lemma run_project_build_ok (language : String) (files : List PFile)
    (stdin : String) (build_command run_command : Option String)
    (bb rb : ProcBehavior)
    (hok : buildAttempted language files build_command = false ∨
      (execute_command bb 120).exitCode = 0) :
    run_project language files stdin build_command run_command bb rb =
      runPhase language (resolvedRunCmd language run_command)
        (if buildAttempted language files build_command then
          some (toBuildResult (execute_command bb 120))
        else none) rb := by
  unfold run_project
  rcases hok with hskip | hzero
  · simp [hskip]
  · by_cases hb : buildAttempted language files build_command = true
    · simp [hb, hzero]
    · simp only [Bool.not_eq_true] at hb
      simp [hb]

/-! ## C10 -/

/-- C10: for every outcome `run_project` can produce, the in-process
worker (`_execute_job`) and the distributed Redis worker
(`execute_run_job`) assign the identical terminal `Run` state, so the
distributed variant preserves the external job states of the in-process
queue. -/
theorem C10_worker_status_equivalence (language : String) (files : List PFile)
    (stdin : String) (build_command run_command : Option String)
    (bb rb : ProcBehavior) :
    workerFinalStatus
        (run_project language files stdin build_command run_command bb rb) =
      inProcessFinalStatus
        (run_project language files stdin build_command run_command bb rb) := by
  by_cases hb : buildAttempted language files build_command = true
  · by_cases hfail : (execute_command bb 120).exitCode = 0
    · rw [run_project_build_ok language files stdin build_command run_command bb rb
        (Or.inr hfail)]
      exact finalStatus_agree_runPhase _ _ _ _
    · rw [run_project_build_failed language files stdin build_command run_command bb rb
        hb hfail]
      simp [workerFinalStatus, inProcessFinalStatus]
  · simp only [Bool.not_eq_true] at hb
    rw [run_project_build_ok language files stdin build_command run_command bb rb
      (Or.inl hb)]
    exact finalStatus_agree_runPhase _ _ _ _

/-! ## C1 -/

/-- C1 counterexample: a C project whose build exits 1. `run_project`
returns `compilation_error`, but the persisted run-phase fields
(`stdout`, `stderr`, `exit_code`, `run_time`) written by `_execute_job`
do NOT stay null: they receive the build stdout, the `Build failed:`
stderr, the build exit code and `run_time = 0`, refuting the claim that
the run-phase columns stay null. -/
theorem C1_counterexample :
    (run_project "c" [⟨"a.c", "a.c", "int main", true⟩] "" none none
        (.normal "" "syntax error" 1 2) (.normal "" "" 0 1)).status =
      "compilation_error" ∧
    (applyResult (newRunRow 1 1 0)
        (run_project "c" [⟨"a.c", "a.c", "int main", true⟩] "" none none
          (.normal "" "syntax error" 1 2) (.normal "" "" 0 1)) 5).stdout ≠ none ∧
    (applyResult (newRunRow 1 1 0)
        (run_project "c" [⟨"a.c", "a.c", "int main", true⟩] "" none none
          (.normal "" "syntax error" 1 2) (.normal "" "" 0 1)) 5).stderr ≠ none ∧
    (applyResult (newRunRow 1 1 0)
        (run_project "c" [⟨"a.c", "a.c", "int main", true⟩] "" none none
          (.normal "" "syntax error" 1 2) (.normal "" "" 0 1)) 5).exitCode ≠ none ∧
    (applyResult (newRunRow 1 1 0)
        (run_project "c" [⟨"a.c", "a.c", "int main", true⟩] "" none none
          (.normal "" "syntax error" 1 2) (.normal "" "" 0 1)) 5).runTime ≠ none := by
  decide

/-- C1 (amended): when the build phase runs and exits non-zero,
`run_project` returns `compilation_error` carrying the build
stdout/stderr/exit code, the run phase is never attempted (the result
does not depend on the run-phase behavior), and the persisted Run's
run-phase fields receive the build outputs (stderr prefixed
`Build failed:`, run time `0`) rather than staying null. -/
theorem C1_build_failure_short_circuits (language : String)
    (files : List PFile) (stdin : String)
    (build_command run_command : Option String) (bb : ProcBehavior)
    (hb : buildAttempted language files build_command = true)
    (hfail : (execute_command bb 120).exitCode ≠ 0) :
    ∀ rb rb' : ProcBehavior,
      run_project language files stdin build_command run_command bb rb =
        run_project language files stdin build_command run_command bb rb' ∧
      (run_project language files stdin build_command run_command bb rb).status =
        "compilation_error" ∧
      (run_project language files stdin build_command run_command bb rb).stdout =
        (execute_command bb 120).stdout ∧
      (run_project language files stdin build_command run_command bb rb).stderr =
        "Build failed:\n" ++ (execute_command bb 120).stderr ∧
      (run_project language files stdin build_command run_command bb rb).exitCode =
        (execute_command bb 120).exitCode ∧
      (run_project language files stdin build_command run_command bb rb).buildResult =
        some (toBuildResult (execute_command bb 120)) ∧
      ∀ (run : RunRow) (fin : Nat),
        (applyResult run
            (run_project language files stdin build_command run_command bb rb)
            fin).state = .compilationError ∧
        (applyResult run
            (run_project language files stdin build_command run_command bb rb)
            fin).stdout = some (execute_command bb 120).stdout ∧
        (applyResult run
            (run_project language files stdin build_command run_command bb rb)
            fin).stderr =
          some ("Build failed:\n" ++ (execute_command bb 120).stderr) ∧
        (applyResult run
            (run_project language files stdin build_command run_command bb rb)
            fin).exitCode = some (execute_command bb 120).exitCode ∧
        (applyResult run
            (run_project language files stdin build_command run_command bb rb)
            fin).runTime = some 0 := by
  intro rb rb'
  rw [run_project_build_failed language files stdin build_command run_command bb rb
      hb hfail,
    run_project_build_failed language files stdin build_command run_command bb rb'
      hb hfail]
  refine ⟨rfl, rfl, rfl, rfl, rfl, rfl, ?_⟩
  intro run fin
  simp [applyResult, inProcessFinalStatus]

/-- C1 witness: the amended theorem applied at the concrete failing C
build. -/
theorem C1_witness :
    (run_project "c" [⟨"a.c", "a.c", "x", true⟩] "" none none
        (.normal "" "e" 1 2) (.normal "o" "" 0 1)).status =
      "compilation_error" :=
  (C1_build_failure_short_circuits "c" [⟨"a.c", "a.c", "x", true⟩] "" none none
      (.normal "" "e" 1 2) (by decide) (by decide)
      (.normal "o" "" 0 1) .timedOut).2.1

/-! ## C4 -/

/-- C4: when the resolved run command is truthy and the build phase was
skipped or exited zero, the outcome is `timeout` when the run subprocess
exceeds its 30-second wall-clock budget (exit code replaced by the
sentinel `-1`), `error` when it exits non-zero, and `success` when it
exits zero. -/
theorem C4_run_classification (language : String) (files : List PFile)
    (stdin : String) (build_command run_command : Option String)
    (bb rb : ProcBehavior)
    (hrun : pyTruthy (resolvedRunCmd language run_command) = true)
    (hok : buildAttempted language files build_command = false ∨
      (execute_command bb 120).exitCode = 0) :
    (rb = .timedOut →
      (run_project language files stdin build_command run_command bb rb).status =
          "timeout" ∧
      (run_project language files stdin build_command run_command bb rb).exitCode =
          -1) ∧
    (∀ out err code t, rb = .normal out err code t →
      (code ≠ 0 →
        (run_project language files stdin build_command run_command bb rb).status =
          "error") ∧
      (code = 0 →
        (run_project language files stdin build_command run_command bb rb).status =
          "success")) := by
  rw [run_project_build_ok language files stdin build_command run_command bb rb hok]
  constructor
  · rintro rfl
    simp [runPhase, hrun, execute_command]
  · rintro out err code t rfl
    constructor
    · intro hnz
      simp [runPhase, hrun, execute_command, hnz]
    · rintro rfl
      simp [runPhase, hrun, execute_command]

/-- C4 witness: concrete instances of all three classifications for a
plain Python run with no build step. -/
theorem C4_witness :
    (run_project "python" [⟨"main.py", "main.py", "x", true⟩] "" none none
        .timedOut .timedOut).status = "timeout" ∧
    (run_project "python" [⟨"main.py", "main.py", "x", true⟩] "" none none
        .timedOut (.normal "" "err" 2 1)).status = "error" ∧
    (run_project "python" [⟨"main.py", "main.py", "x", true⟩] "" none none
        .timedOut (.normal "hi" "" 0 1)).status = "success" := by
  refine ⟨?_, ?_, ?_⟩
  · exact ((C4_run_classification "python" [⟨"main.py", "main.py", "x", true⟩] ""
      none none .timedOut .timedOut (by decide) (Or.inl (by decide))).1 rfl).1
  · exact ((C4_run_classification "python" [⟨"main.py", "main.py", "x", true⟩] ""
      none none .timedOut (.normal "" "err" 2 1) (by decide)
      (Or.inl (by decide))).2 "" "err" 2 1 rfl).1 (by decide)
  · exact ((C4_run_classification "python" [⟨"main.py", "main.py", "x", true⟩] ""
      none none .timedOut (.normal "hi" "" 0 1) (by decide)
      (Or.inl (by decide))).2 "hi" "" 0 1 rfl).2 rfl

/-! ## C8 -/

/-- C8 counterexample: an explicit empty-string build command does NOT
win over the language default — Python's `or` treats `""` as falsy, so
`build_cmd = build_command or defaults['build']` falls back to the
default `pip install -r requirements.txt`, refuting "for every
non-default explicit value, including the empty string". -/
theorem C8_counterexample :
    resolvedBuildCmd "python" (some "") =
      some "pip install -r requirements.txt" ∧
    resolvedBuildCmd "python" (some "") ≠ some "" := by
  decide

/-- C8 (amended): an explicit non-empty request value wins over the
language default; an absent or empty-string value falls back to the
default; and the (Python) build step is skipped entirely when
`requirements.txt` is absent from the submitted files, and runs when it
is present. -/
theorem C8_command_resolution :
    (∀ (language s : String), s ≠ "" →
      resolvedBuildCmd language (some s) = some s ∧
      resolvedRunCmd language (some s) = some s) ∧
    (∀ language : String,
      resolvedBuildCmd language none = (get_default_commands language).1 ∧
      resolvedBuildCmd language (some "") = (get_default_commands language).1 ∧
      resolvedRunCmd language none = (get_default_commands language).2 ∧
      resolvedRunCmd language (some "") = (get_default_commands language).2) ∧
    (∀ files : List PFile,
      buildAttempted "python" files none = hasRequirements files) := by
  refine ⟨?_, ?_, ?_⟩
  · intro language s hs
    constructor
    · simp [resolvedBuildCmd, pyOrStr, pyTruthy, hs]
    · simp [resolvedRunCmd, pyOrStr, pyTruthy, hs]
  · intro language
    refine ⟨rfl, ?_, rfl, ?_⟩
    · simp [resolvedBuildCmd, pyOrStr, pyTruthy]
    · simp [resolvedRunCmd, pyOrStr, pyTruthy]
  · intro files
    have hres : resolvedBuildCmd "python" none =
        some "pip install -r requirements.txt" := by decide
    simp only [buildAttempted, hres]
    rw [if_pos (by decide)]
    have ht : pyTruthy (some "pip install -r requirements.txt") = true := by
      decide
    rw [ht, Bool.true_and]

/-- C8 witness: the amended theorem instantiated at a concrete non-empty
explicit command and at concrete file lists with and without a
`requirements.txt`. -/
theorem C8_witness :
    resolvedBuildCmd "python" (some "make") = some "make" ∧
    buildAttempted "python" [⟨"main.py", "main.py", "x", true⟩] none = false ∧
    buildAttempted "python"
      [⟨"requirements.txt", "requirements.txt", "requests", false⟩] none = true := by
  refine ⟨(C8_command_resolution.1 "python" "make" (by decide)).1, ?_, ?_⟩
  · rw [C8_command_resolution.2.2 [⟨"main.py", "main.py", "x", true⟩]]
    decide
  · rw [C8_command_resolution.2.2
      [⟨"requirements.txt", "requirements.txt", "requests", false⟩]]
    decide

/-! ## C9 -/

/-- C9 counterexample: a C project whose build succeeds silently (empty
stdout and stderr, exit 0). The build step ran — the persisted build
columns are non-null — but the polled view's `build_output` is `None`
because `run.build_stdout or run.build_stderr` is falsy, refuting
"whenever a build step ran, they are present" for the polled view. -/
theorem C9_counterexample :
    (run_project "c" [⟨"a.c", "a.c", "int main", true⟩] "" none none
        (.normal "" "" 0 3) (.normal "ok" "" 0 1)).buildResult ≠ none ∧
    (applyResult (newRunRow 1 1 0)
        (run_project "c" [⟨"a.c", "a.c", "int main", true⟩] "" none none
          (.normal "" "" 0 3) (.normal "ok" "" 0 1)) 5).buildExitCode =
      some 0 ∧
    buildOutputView
        (applyResult (newRunRow 1 1 0)
          (run_project "c" [⟨"a.c", "a.c", "int main", true⟩] "" none none
            (.normal "" "" 0 3) (.normal "ok" "" 0 1)) 5) = none := by
  decide

/-- C9 (amended): in the persisted Run, the build-phase columns are
non-null exactly when a build step ran (`run_project` produced a
`build_result`, which happens exactly when a build step applied to the
request); in the polled view, `build_output` is present exactly when the
persisted build stdout or build stderr is a non-empty string — so a build
step that ran with empty outputs is present in the persisted row but
absent from the polled view. -/
theorem C9_build_output_presence (language : String) (files : List PFile)
    (stdin : String) (build_command run_command : Option String)
    (bb rb : ProcBehavior) (r0 : RunRow) (fin : Nat)
    (h1 : r0.buildStdout = none) (h2 : r0.buildStderr = none)
    (h3 : r0.buildExitCode = none) (h4 : r0.buildTime = none) :
    ((run_project language files stdin build_command run_command bb rb).buildResult
        ≠ none ↔
      buildAttempted language files build_command = true) ∧
    ((applyResult r0
        (run_project language files stdin build_command run_command bb rb)
        fin).buildExitCode ≠ none ↔
      (run_project language files stdin build_command run_command bb rb).buildResult
        ≠ none) ∧
    ((applyResult r0
        (run_project language files stdin build_command run_command bb rb)
        fin).buildStdout ≠ none ↔
      (run_project language files stdin build_command run_command bb rb).buildResult
        ≠ none) ∧
    ((applyResult r0
        (run_project language files stdin build_command run_command bb rb)
        fin).buildStderr ≠ none ↔
      (run_project language files stdin build_command run_command bb rb).buildResult
        ≠ none) ∧
    ((applyResult r0
        (run_project language files stdin build_command run_command bb rb)
        fin).buildTime ≠ none ↔
      (run_project language files stdin build_command run_command bb rb).buildResult
        ≠ none) ∧
    (∀ row : RunRow, buildOutputView row ≠ none ↔
      (pyTruthy row.buildStdout || pyTruthy row.buildStderr) = true) := by
  refine ⟨?_, ?_, ?_, ?_, ?_, ?_⟩
  · by_cases hb : buildAttempted language files build_command = true
    · by_cases hfail : (execute_command bb 120).exitCode = 0
      · rw [run_project_build_ok language files stdin build_command run_command bb rb
          (Or.inr hfail)]
        simp [runPhase, hb]
        by_cases hc : pyTruthy (resolvedRunCmd language run_command) = true <;>
          simp [hc]
      · rw [run_project_build_failed language files stdin build_command run_command
          bb rb hb hfail]
        simp [hb]
    · simp only [Bool.not_eq_true] at hb
      rw [run_project_build_ok language files stdin build_command run_command bb rb
        (Or.inl hb)]
      simp [runPhase, hb]
      by_cases hc : pyTruthy (resolvedRunCmd language run_command) = true <;>
        simp [hc]
  · cases hbr : (run_project language files stdin build_command run_command bb
        rb).buildResult with
    | none => simp [applyResult, hbr, h3]
    | some b => simp [applyResult, hbr]
  · cases hbr : (run_project language files stdin build_command run_command bb
        rb).buildResult with
    | none => simp [applyResult, hbr, h1]
    | some b => simp [applyResult, hbr]
  · cases hbr : (run_project language files stdin build_command run_command bb
        rb).buildResult with
    | none => simp [applyResult, hbr, h2]
    | some b => simp [applyResult, hbr]
  · cases hbr : (run_project language files stdin build_command run_command bb
        rb).buildResult with
    | none => simp [applyResult, hbr, h4]
    | some b => simp [applyResult, hbr]
  · intro row
    unfold buildOutputView
    by_cases hc : (pyTruthy row.buildStdout || pyTruthy row.buildStderr) = true <;>
      simp [hc]

/-- C9 witness: the amended theorem applied to the silent successful C
build; the build columns are non-null while the view is empty. -/
theorem C9_witness :
    ((applyResult (newRunRow 1 1 0)
        (run_project "c" [⟨"a.c", "a.c", "int main", true⟩] "" none none
          (.normal "" "" 0 3) (.normal "ok" "" 0 1)) 5).buildExitCode ≠ none) ∧
    (buildOutputView
        (applyResult (newRunRow 1 1 0)
          (run_project "c" [⟨"a.c", "a.c", "int main", true⟩] "" none none
            (.normal "" "" 0 3) (.normal "ok" "" 0 1)) 5) ≠ none ↔
      (pyTruthy (applyResult (newRunRow 1 1 0)
          (run_project "c" [⟨"a.c", "a.c", "int main", true⟩] "" none none
            (.normal "" "" 0 3) (.normal "ok" "" 0 1)) 5).buildStdout ||
        pyTruthy (applyResult (newRunRow 1 1 0)
          (run_project "c" [⟨"a.c", "a.c", "int main", true⟩] "" none none
            (.normal "" "" 0 3) (.normal "ok" "" 0 1)) 5).buildStderr) = true) := by
  have h := C9_build_output_presence "c" [⟨"a.c", "a.c", "int main", true⟩] ""
    none none (.normal "" "" 0 3) (.normal "ok" "" 0 1) (newRunRow 1 1 0) 5
    rfl rfl rfl rfl
  exact ⟨h.2.1.mpr (h.1.mpr (by decide)), h.2.2.2.2.2 _⟩

/-! ## C2 -/

/-- C2 counterexample: a submitted file named `../evil.py` is written at
`os.path.join(work_dir, '../evil.py')`, which resolves OUTSIDE the
scratch directory — `write_project_files` performs no name
sanitization, refuting "never at a path outside it, regardless of the
file's name". -/
theorem C2_counterexample :
    FsEvent.write (joinPath "/tmp/job" "../evil.py") ∈
      run_project_fs_trace "/tmp/job" [⟨"../evil.py", "../evil.py", "x", true⟩] ∧
    insideDir "/tmp/job" (joinPath "/tmp/job" "../evil.py") = false := by
  decide

/-- One-step unfolding of `splitSlashAux` on a cons. -/
lemma splitSlashAux_cons (acc : List Char) (c : Char) (l : List Char) :
    splitSlashAux acc (c :: l) =
      if c = '/' then String.mk acc.reverse :: splitSlashAux [] l
      else splitSlashAux (c :: acc) l := rfl

/-- Splitting a character list at an explicit `/` splits the segment
list there. -/
lemma splitSlashAux_append (ds : List Char) :
    ∀ (cs acc : List Char),
      splitSlashAux acc (cs ++ '/' :: ds) =
        splitSlashAux acc cs ++ splitSlashAux [] ds := by
  intro cs
  induction cs with
  | nil => intro acc; rfl
  | cons c rest ih =>
      intro acc
      rw [List.cons_append, splitSlashAux_cons, splitSlashAux_cons]
      by_cases hc : c = '/'
      · rw [if_pos hc, if_pos hc, ih, List.cons_append]
      · rw [if_neg hc, if_neg hc, ih]

/-- Segments of `a ++ "/" ++ b` are the segments of `a` followed by the
segments of `b`. -/
lemma pathSegs_append_slash (a b : String) :
    pathSegs (a ++ "/" ++ b) = pathSegs a ++ pathSegs b := by
  unfold pathSegs
  have hdata : (a ++ "/" ++ b).data = a.data ++ '/' :: b.data := by
    rw [String.data_append, String.data_append, List.append_assoc]
    rfl
  rw [hdata, splitSlashAux_append]

/-- Boolean `isPrefixOf` follows from the `List.IsPrefix` relation. -/
lemma prefixIsPrefixOf {l₁ l₂ : List String} (h : l₁ <+: l₂) :
    l₁.isPrefixOf l₂ = true := by
  obtain ⟨t, rfl⟩ := h
  induction l₁ with
  | nil =>
      rw [List.nil_append]
      cases t <;> rfl
  | cons a rest ih => simp [List.isPrefixOf, List.cons_append, ih]

/-- Folding the normalization step over segments that contain no `..`
only ever appends, so the accumulator stays a prefix of the result. -/
lemma prefix_foldl_norm :
    ∀ v : List String, ".." ∉ v → ∀ acc : List String,
      acc <+: v.foldl
        (fun acc seg =>
          if seg = "" ∨ seg = "." then acc
          else if seg = ".." then acc.dropLast
          else acc ++ [seg]) acc := by
  intro v
  induction v with
  | nil => intro _ acc; exact List.prefix_refl acc
  | cons seg rest ih =>
      intro hno acc
      have hno' : ".." ∉ rest := fun hm => hno (List.mem_cons_of_mem _ hm)
      have hseg : seg ≠ ".." := fun he => hno (he ▸ List.mem_cons_self _ _)
      simp only [List.foldl_cons]
      by_cases hskip : seg = "" ∨ seg = "."
      · rw [if_pos hskip]
        exact ih hno' acc
      · rw [if_neg hskip, if_neg hseg]
        exact (List.prefix_append acc [seg]).trans (ih hno' (acc ++ [seg]))

/-- A relative name without `..` segments stays inside the directory it
is joined onto. -/
lemma insideDir_join (dir name : String) (habs : isAbsPath name = false)
    (hno : ".." ∉ pathSegs name) :
    insideDir dir (joinPath dir name) = true := by
  unfold insideDir joinPath
  rw [if_neg (by simp [habs])]
  have h1 : normalizePath (dir ++ "/" ++ name) =
      (pathSegs name).foldl
        (fun acc seg =>
          if seg = "" ∨ seg = "." then acc
          else if seg = ".." then acc.dropLast
          else acc ++ [seg]) (normalizePath dir) := by
    unfold normalizePath normalizeSegs
    rw [pathSegs_append_slash, List.foldl_append]
  rw [h1]
  exact prefixIsPrefixOf (prefix_foldl_norm (pathSegs name) hno (normalizePath dir))

/-- C2 (amended): every submitted file is materialized — its write event
at exactly `os.path.join(work_dir, name)` is in the trace — and that
location is inside the scratch directory whenever the name is relative
and free of `..` segments (a `..` or absolute name escapes it, per the
counterexample); the trace contains nothing but these writes; and the
scratch directory is removed as the final action on every exit path. -/
theorem C2_materialization_and_cleanup (workDir : String) (files : List PFile) :
    (∀ f ∈ files,
      FsEvent.write (joinPath workDir f.name) ∈
        run_project_fs_trace workDir files) ∧
    (∀ f ∈ files, isAbsPath f.name = false → ".." ∉ pathSegs f.name →
      insideDir workDir (joinPath workDir f.name) = true) ∧
    (run_project_fs_trace workDir files).getLast? =
      some (.rmtree workDir) ∧
    (∀ e ∈ run_project_fs_trace workDir files,
      e = .rmtree workDir ∨
      ∃ f ∈ files, e = .write (joinPath workDir f.name)) := by
  refine ⟨?_, ?_, ?_, ?_⟩
  · intro f hf
    unfold run_project_fs_trace write_project_files
    exact List.mem_append_left _ (List.mem_map.mpr ⟨f, hf, rfl⟩)
  · intro f hf habs hno
    exact insideDir_join workDir f.name habs hno
  · unfold run_project_fs_trace
    exact List.getLast?_concat _
  · intro e he
    unfold run_project_fs_trace write_project_files at he
    rcases List.mem_append.mp he with hw | hr
    · rcases List.mem_map.mp hw with ⟨f, hf, rfl⟩
      exact Or.inr ⟨f, hf, rfl⟩
    · simp only [List.mem_singleton] at hr
      exact Or.inl hr

/-- C2 witness: the amended theorem applied to a concrete one-file
project — the file's write event is in the trace, its path is inside the
scratch directory, and the trace ends with the `rmtree` of the scratch
directory. -/
theorem C2_witness :
    FsEvent.write (joinPath "/tmp/job" "pkg/main.py") ∈
      run_project_fs_trace "/tmp/job"
        [⟨"pkg/main.py", "pkg/main.py", "x", true⟩] ∧
    insideDir "/tmp/job" (joinPath "/tmp/job" "pkg/main.py") = true ∧
    (run_project_fs_trace "/tmp/job"
        [⟨"pkg/main.py", "pkg/main.py", "x", true⟩]).getLast? =
      some (.rmtree "/tmp/job") := by
  have h := C2_materialization_and_cleanup "/tmp/job"
    [⟨"pkg/main.py", "pkg/main.py", "x", true⟩]
  exact ⟨h.1 ⟨"pkg/main.py", "pkg/main.py", "x", true⟩ (by decide),
    h.2.1 ⟨"pkg/main.py", "pkg/main.py", "x", true⟩ (by decide) (by decide)
      (by decide),
    h.2.2.1⟩

/-! ## Admission control (`enqueue_execution`) and the queue system -/

/-- Answer of `ExecutionQueueManager.enqueue_job`: the bounded-wait
insert succeeds, times out with the queue full, or raises. -/
inductive QueueReply where
  | accepted
  | full
  | failedMsg (msg : String)
deriving DecidableEq, Repr

/-- The externally visible result of one submit call. -/
inductive SubmitOutcome where
  | accepted (runId : Nat)
  | conflict (blockingId : Nat)
  | rateLimited (waitSeconds : Nat)
  | overloaded (runId : Nat)
  | enqueueFailed (runId : Nat)
deriving DecidableEq, Repr

/-- Whether a row is non-terminal, i.e. in `{queued, running}`. -/
def nonTerminalB (r : RunRow) : Bool :=
  r.state == RunState.queued || r.state == RunState.running

/-- The strict-lock query of `enqueue_execution`: the first `Run` of the
attempt whose status is in `{QUEUED, RUNNING}`. -/
def findBlocking (db : List RunRow) (attemptId : Nat) : Option RunRow :=
  db.find? (fun r => r.attemptId == attemptId && nonTerminalB r)

/-- The throttle query of `enqueue_execution`: the attempt's
most-recently-created `Run` (`order_by created_at desc limit 1`). -/
def lastCreatedRun (db : List RunRow) (attemptId : Nat) : Option RunRow :=
  (db.filter (fun r => r.attemptId == attemptId)).foldl
    (fun acc r =>
      match acc with
      | none => some r
      | some b => if b.createdAt ≤ r.createdAt then some r else some b)
    none

/-- Result of one submit call: the outcome, the resulting `Run` table,
and the run id handed to the in-process queue (when accepted). -/
structure SubmitResult where
  outcome : SubmitOutcome
  db : List RunRow
  queued : Option Nat
deriving DecidableEq, Repr

/-- Mark a just-created `Run` as `error` with a diagnostic message and a
terminal `finished_at` (the enqueue-failure path of
`enqueue_execution`). -/
def errorRun (run : RunRow) (msg : String) (now : Nat) : RunRow :=
  { run with state := .error, stderr := some msg, finishedAt := some now }

/-- The write phase of `enqueue_execution` after both checks pass:
create the queued `Run`, hand the job to the queue manager, and on
rejection mark the run `error` (an `overloaded` message yields 503, any
other enqueue failure 400). -/
def submitProceed (db : List RunRow) (attemptId now freshId : Nat)
    (reply : QueueReply) : SubmitResult :=
  let newRun := newRunRow freshId attemptId now
  match reply with
  | .accepted => ⟨.accepted freshId, db ++ [newRun], some freshId⟩
  | .full =>
      ⟨.overloaded freshId,
        db ++ [errorRun newRun "Execution queue overloaded" now], none⟩
  | .failedMsg m =>
      ⟨.enqueueFailed freshId,
        db ++ [errorRun newRun ("Enqueueing failed: " ++ m) now], none⟩

/-- `enqueue_execution` (backend/app/routers/execute.py): reject with
`conflict` when a queued/running `Run` exists for the attempt; else
reject with `rate-limited` when the most-recently-created `Run` is
younger than the throttle interval — the reported wait is the configured
`RUN_ENQUEUE_THROTTLE`, not the remaining wait; else create the `Run`
and enqueue it. -/
def submitRun (db : List RunRow) (attemptId now throttle freshId : Nat)
    (reply : QueueReply) : SubmitResult :=
  match findBlocking db attemptId with
  | some b => ⟨.conflict b.id, db, none⟩
  | none =>
      match lastCreatedRun db attemptId with
      | some last =>
          if now - last.createdAt < throttle then
            ⟨.rateLimited throttle, db, none⟩
          else submitProceed db attemptId now freshId reply
      | none => submitProceed db attemptId now freshId reply

/-- The full state of the in-process execution subsystem: the persisted
`Run` table, the FIFO queue of pending run ids, and the run ids a worker
has picked up and marked running but not yet finished. -/
structure SysState where
  db : List RunRow
  queue : List Nat
  processing : List Nat

/-- How a worker's processing of a job ends: with a `run_project`
outcome, or with an exception caught by `_execute_job`'s handler. -/
inductive FinishCause where
  | ok (r : RunOutcome)
  | exn (msg : String)

/-- Update the row(s) with the given id. -/
def setRun (db : List RunRow) (id : Nat) (f : RunRow → RunRow) : List RunRow :=
  db.map (fun r => if r.id = id then f r else r)

/-- The state of the run with the given id, if present. -/
def stateOf (db : List RunRow) (id : Nat) : Option RunState :=
  (db.find? (fun r => r.id == id)).map (fun r => r.state)

/-- Submit applied to the system state: the resulting table, and the
accepted run id appended to the FIFO queue. -/
def applySubmit (s : SysState) (attemptId now throttle freshId : Nat)
    (reply : QueueReply) : SysState :=
  let res := submitRun s.db attemptId now throttle freshId reply
  { db := res.db, queue := s.queue ++ res.queued.toList,
    processing := s.processing }

/-- The worker's terminal write for one job (`_execute_job`): persist the
outcome's terminal state and outputs, or — when any exception escapes —
mark the run `error` with an `Internal execution error` message; either
way set `finished_at`. -/
def finishRow (r : RunRow) (cause : FinishCause) (now : Nat) : RunRow :=
  match cause with
  | .ok res => applyResult r res now
  | .exn msg =>
      { r with
          state := .error
          stderr := some ("Internal execution error: " ++ msg)
          finishedAt := some now }

/-- The worker's pickup write (`_update_run_status` with
`RunStatus.RUNNING` and `started_at=utcnow()`). -/
def setRunning (now : Nat) (r : RunRow) : RunRow :=
  { r with state := .running, startedAt := some now }

/-- One step of the execution subsystem: an admission call
(`enqueue_execution` with a fresh run id), a worker picking up the FIFO
head and marking it running with `started_at`, or a worker finishing a
picked-up job with `finishRow`. -/
inductive SysStep : SysState → SysState → Prop where
  | submit (s : SysState) (attemptId now throttle freshId : Nat)
      (reply : QueueReply) (hfresh : ∀ r ∈ s.db, r.id ≠ freshId) :
      SysStep s (applySubmit s attemptId now throttle freshId reply)
  | pickup (s : SysState) (id : Nat) (rest : List Nat) (now : Nat)
      (hq : s.queue = id :: rest) :
      SysStep s
        ⟨setRun s.db id (setRunning now), rest, s.processing ++ [id]⟩
  | finish (s : SysState) (id : Nat) (now : Nat) (cause : FinishCause)
      (hp : id ∈ s.processing) :
      SysStep s
        ⟨setRun s.db id (fun r => finishRow r cause now),
          s.queue, s.processing.erase id⟩

/-- The strict lock of §4.1: per attempt, at most one `Run` in
`{queued, running}`. -/
def strictLock (db : List RunRow) : Prop :=
  ∀ a : Nat,
    (db.filter (fun r => r.attemptId == a && nonTerminalB r)).length ≤ 1

/-- Well-formedness of the system state: run ids are unique, the queue
and processing lists hold distinct ids, queued ids name `queued` rows and
processing ids name `running` rows. -/
def Inv (s : SysState) : Prop :=
  (s.db.map (fun r => r.id)).Nodup ∧
  (s.queue ++ s.processing).Nodup ∧
  (∀ id ∈ s.queue, stateOf s.db id = some .queued) ∧
  (∀ id ∈ s.processing, stateOf s.db id = some .running)

/-- Run-state edges of the authoritative state machine (§4.3), as
realized by the code: worker pickup, the four worker terminal writes,
and the admission-time enqueue-failure write. -/
def allowedEdge : RunState → RunState → Bool
  | .queued, .running => true
  | .running, .success => true
  | .running, .error => true
  | .running, .timeout => true
  | .running, .compilationError => true
  | .queued, .error => true
  | _, _ => false

/-! ## List and lookup lemmas for the system model -/

lemma find?_append_some {α} {p : α → Bool} {l₁ : List α} (l₂ : List α) {r : α}
    (h : l₁.find? p = some r) : (l₁ ++ l₂).find? p = some r := by
  rw [List.find?_append, h, Option.or]

lemma find?_append_none {α} {p : α → Bool} {l₁ : List α} (l₂ : List α)
    (h : l₁.find? p = none) : (l₁ ++ l₂).find? p = l₂.find? p := by
  rw [List.find?_append, h, Option.or]

lemma stateOf_append {db : List RunRow} (l : List RunRow) {id : Nat}
    {st : RunState} (h : stateOf db id = some st) :
    stateOf (db ++ l) id = some st := by
  unfold stateOf at h ⊢
  cases hf : db.find? (fun r => r.id == id) with
  | none => rw [hf] at h; exact absurd h (by simp)
  | some r => rw [find?_append_some l hf]; rw [hf] at h; exact h

lemma stateOf_mem_ids {db : List RunRow} {id : Nat} {st : RunState}
    (h : stateOf db id = some st) : id ∈ db.map (fun r => r.id) := by
  unfold stateOf at h
  cases hf : db.find? (fun r => r.id == id) with
  | none => rw [hf] at h; exact absurd h (by simp)
  | some r =>
      have hm := List.mem_of_find?_eq_some hf
      have hp := List.find?_some hf
      simp only [beq_iff_eq] at hp
      exact List.mem_map.mpr ⟨r, hm, hp⟩

lemma stateOf_append_new {db : List RunRow} {nr : RunRow}
    (h : ∀ r ∈ db, r.id ≠ nr.id) :
    stateOf (db ++ [nr]) nr.id = some nr.state := by
  unfold stateOf
  rw [find?_append_none]
  · simp [List.find?]
  · rw [List.find?_eq_none]
    intro x hx
    simpa using h x hx

lemma setRun_map_id {db : List RunRow} {id : Nat} {f : RunRow → RunRow}
    (hf : ∀ r, (f r).id = r.id) :
    (setRun db id f).map (fun r => r.id) = db.map (fun r => r.id) := by
  unfold setRun
  rw [List.map_map]
  refine List.map_congr_left ?_
  intro r _
  by_cases h : r.id = id <;> simp [h, hf]

lemma setRun_find?_eq {db : List RunRow} {id : Nat} {f : RunRow → RunRow}
    (hf : ∀ r, (f r).id = r.id) :
    (setRun db id f).find? (fun r => r.id == id) =
      (db.find? (fun r => r.id == id)).map f := by
  induction db with
  | nil => rfl
  | cons r rest ih =>
      by_cases h : r.id = id
      · simp [setRun, List.find?, h, hf]
      · simp only [setRun, List.map_cons, List.find?] at ih ⊢
        rw [if_neg h]
        have hb : (r.id == id) = false := by simpa using h
        rw [hb]
        exact ih

lemma setRun_find?_ne {db : List RunRow} {id j : Nat} {f : RunRow → RunRow}
    (hf : ∀ r, (f r).id = r.id) (hne : j ≠ id) :
    (setRun db id f).find? (fun r => r.id == j) =
      db.find? (fun r => r.id == j) := by
  induction db with
  | nil => rfl
  | cons r rest ih =>
      by_cases h : r.id = id
      · have hb : (r.id == j) = false := by
          simp only [beq_eq_false_iff_ne, ne_eq]
          intro hrj
          exact hne (by rw [← hrj, h])
        have hb' : ((f r).id == j) = false := by rw [hf]; exact hb
        simp only [setRun, List.map_cons, List.find?, if_pos h, hb, hb'] at ih ⊢
        exact ih
      · have hgr : (if r.id = id then f r else r) = r := if_neg h
        by_cases hj : r.id = j
        · have hb : (r.id == j) = true := by simpa using hj
          simp only [setRun, List.map_cons, List.find?, hgr, hb]
        · have hb : (r.id == j) = false := by simpa using hj
          simp only [setRun, List.map_cons, List.find?, hgr, hb] at ih ⊢
          exact ih

lemma stateOf_setRun_ne {db : List RunRow} {id j : Nat} {f : RunRow → RunRow}
    (hf : ∀ r, (f r).id = r.id) (hne : j ≠ id) :
    stateOf (setRun db id f) j = stateOf db j := by
  unfold stateOf
  rw [setRun_find?_ne hf hne]

lemma stateOf_setRun_eq {db : List RunRow} {id : Nat} {f : RunRow → RunRow}
    (hf : ∀ r, (f r).id = r.id) :
    stateOf (setRun db id f) id =
      (db.find? (fun r => r.id == id)).map (fun r => (f r).state) := by
  unfold stateOf
  rw [setRun_find?_eq hf]
  cases db.find? (fun r => r.id == id) <;> rfl

lemma filter_length_le_of_map {α} (l : List α) (g : α → α) (p : α → Bool)
    (h : ∀ r ∈ l, p (g r) = true → p r = true) :
    ((l.map g).filter p).length ≤ (l.filter p).length := by
  induction l with
  | nil => simp
  | cons r rest ih =>
      have ih' := ih (fun x hx => h x (List.mem_cons_of_mem _ hx))
      by_cases hg : p (g r) = true
      · have hr := h r (List.mem_cons_self _ _) hg
        simp only [List.map_cons, List.filter_cons, hg, hr, if_true,
          List.length_cons]
        exact Nat.succ_le_succ ih'
      · have hg' : p (g r) = false := by simpa using hg
        by_cases hr : p r = true
        · simp only [List.map_cons, List.filter_cons, hg', hr, if_true,
            Bool.false_eq_true, if_false, List.length_cons]
          exact Nat.le_succ_of_le ih'
        · have hr' : p r = false := by simpa using hr
          simp only [List.map_cons, List.filter_cons, hg', hr',
            Bool.false_eq_true, if_false]
          exact ih'

lemma mem_id_state_of_nodup {db : List RunRow}
    (hnd : (db.map (fun r => r.id)).Nodup) {r : RunRow} (hr : r ∈ db)
    {id : Nat} (hid : r.id = id) {st : RunState}
    (hst : stateOf db id = some st) : r.state = st := by
  induction db with
  | nil => cases hr
  | cons x rest ih =>
      rw [List.map_cons, List.nodup_cons] at hnd
      rcases List.mem_cons.mp hr with rfl | hr'
      · unfold stateOf at hst
        rw [List.find?] at hst
        rw [show (r.id == id) = true by simpa using hid] at hst
        simpa using hst
      · unfold stateOf at hst
        rw [List.find?] at hst
        by_cases hx : x.id = id
        · exfalso
          apply hnd.1
          rw [hx, ← hid]
          exact List.mem_map.mpr ⟨r, hr', rfl⟩
        · rw [show (x.id == id) = false by simpa using hx] at hst
          exact ih hnd.2 hr' hst

lemma applyResult_id (r : RunRow) (res : RunOutcome) (now : Nat) :
    (applyResult r res now).id = r.id := by
  unfold applyResult
  cases res.buildResult <;> rfl

lemma applyResult_state (r : RunRow) (res : RunOutcome) (now : Nat) :
    (applyResult r res now).state = inProcessFinalStatus res := by
  unfold applyResult
  cases res.buildResult <;> rfl

lemma finishRow_id (r : RunRow) (cause : FinishCause) (now : Nat) :
    (finishRow r cause now).id = r.id := by
  cases cause with
  | ok res =>
      have he : finishRow r (.ok res) now = applyResult r res now := rfl
      rw [he, applyResult_id]
  | exn msg => rfl

lemma inProcessFinalStatus_not_queued_running (res : RunOutcome) :
    inProcessFinalStatus res ≠ .queued ∧
    inProcessFinalStatus res ≠ .running ∧
    inProcessFinalStatus res ≠ .cancelled := by
  unfold inProcessFinalStatus
  split
  · simp
  · split
    · simp
    · split <;> simp

lemma finishRow_state (r : RunRow) (cause : FinishCause) (now : Nat) :
    (finishRow r cause now).state ≠ .queued ∧
    (finishRow r cause now).state ≠ .running ∧
    (finishRow r cause now).state ≠ .cancelled := by
  cases cause with
  | ok res =>
      have he : finishRow r (.ok res) now = applyResult r res now := rfl
      rw [he, applyResult_state]
      exact inProcessFinalStatus_not_queued_running res
  | exn msg => simp [finishRow]

lemma nonTerminalB_finishRow (r : RunRow) (cause : FinishCause) (now : Nat) :
    nonTerminalB (finishRow r cause now) = false := by
  have h := finishRow_state r cause now
  unfold nonTerminalB
  rw [Bool.or_eq_false_iff]
  exact ⟨by simpa using h.1, by simpa using h.2.1⟩

lemma allowedEdge_running_finishRow (r : RunRow) (cause : FinishCause)
    (now : Nat) : allowedEdge .running (finishRow r cause now).state = true := by
  have h := finishRow_state r cause now
  cases hs : (finishRow r cause now).state <;>
    simp_all [allowedEdge]

/-! ## Preservation of the invariants by the system steps -/

lemma fresh_not_mem_ids {db : List RunRow} {fid : Nat}
    (hfresh : ∀ r ∈ db, r.id ≠ fid) : fid ∉ db.map (fun r => r.id) := by
  intro hm
  obtain ⟨r, hr, hid⟩ := List.mem_map.mp hm
  exact hfresh r hr hid

lemma inv_append_row (db : List RunRow) (qu pr : List Nat) (nr : RunRow)
    (hInv : Inv ⟨db, qu, pr⟩) (hfresh : ∀ r ∈ db, r.id ≠ nr.id) :
    Inv ⟨db ++ [nr], qu, pr⟩ := by
  obtain ⟨hids, hqp, hq, hp⟩ := hInv
  refine ⟨?_, hqp, ?_, ?_⟩
  · rw [List.map_append]
    refine List.Nodup.append hids (List.nodup_singleton _) ?_
    simp only [List.map_cons, List.map_nil, List.disjoint_singleton]
    exact fresh_not_mem_ids hfresh
  · intro id hid
    exact stateOf_append _ (hq id hid)
  · intro id hid
    exact stateOf_append _ (hp id hid)

lemma inv_push_queue (db : List RunRow) (qu pr : List Nat) (id : Nat)
    (hInv : Inv ⟨db, qu, pr⟩) (hst : stateOf db id = some .queued)
    (hnotin : id ∉ qu ++ pr) :
    Inv ⟨db, qu ++ [id], pr⟩ := by
  obtain ⟨hids, hqp, hq, hp⟩ := hInv
  refine ⟨hids, ?_, ?_, hp⟩
  · have hperm : List.Perm ((qu ++ [id]) ++ pr) (id :: (qu ++ pr)) := by
      rw [List.append_assoc]
      exact List.perm_middle
    show ((qu ++ [id]) ++ pr).Nodup
    rw [hperm.nodup_iff, List.nodup_cons]
    exact ⟨hnotin, hqp⟩
  · intro j hj
    rcases List.mem_append.mp hj with hj' | hj'
    · exact hq j hj'
    · rw [List.mem_singleton] at hj'
      subst hj'
      exact hst

lemma mem_queue_ne_fresh {db : List RunRow} {qu pr : List Nat} {fid : Nat}
    (hInv : Inv ⟨db, qu, pr⟩) (hfresh : ∀ r ∈ db, r.id ≠ fid) :
    fid ∉ qu ++ pr := by
  obtain ⟨_, _, hq, hp⟩ := hInv
  intro hm
  rcases List.mem_append.mp hm with hm' | hm'
  · exact fresh_not_mem_ids hfresh (stateOf_mem_ids (hq fid hm'))
  · exact fresh_not_mem_ids hfresh (stateOf_mem_ids (hp fid hm'))

lemma inv_submitProceed (db : List RunRow) (qu pr : List Nat)
    (a now fid : Nat) (reply : QueueReply)
    (hInv : Inv ⟨db, qu, pr⟩) (hfresh : ∀ r ∈ db, r.id ≠ fid) :
    Inv ⟨(submitProceed db a now fid reply).db,
      qu ++ (submitProceed db a now fid reply).queued.toList, pr⟩ := by
  cases reply with
  | accepted =>
      have h1 : Inv ⟨db ++ [newRunRow fid a now], qu, pr⟩ :=
        inv_append_row db qu pr _ hInv hfresh
      have hst : stateOf (db ++ [newRunRow fid a now]) fid = some .queued :=
        stateOf_append_new hfresh
      exact inv_push_queue _ qu pr fid h1 hst
        (mem_queue_ne_fresh hInv hfresh)
  | full =>
      have h1 : Inv ⟨db ++
          [errorRun (newRunRow fid a now) "Execution queue overloaded" now],
          qu, pr⟩ :=
        inv_append_row db qu pr _ hInv hfresh
      simpa [submitProceed] using h1
  | failedMsg m =>
      have h1 : Inv ⟨db ++
          [errorRun (newRunRow fid a now) ("Enqueueing failed: " ++ m) now],
          qu, pr⟩ :=
        inv_append_row db qu pr _ hInv hfresh
      simpa [submitProceed] using h1

lemma inv_submit (s : SysState) (a now th fid : Nat) (reply : QueueReply)
    (hInv : Inv s) (hfresh : ∀ r ∈ s.db, r.id ≠ fid) :
    Inv (applySubmit s a now th fid reply) := by
  obtain ⟨db, qu, pr⟩ := s
  unfold applySubmit submitRun
  cases hfb : findBlocking db a with
  | some b => simpa using hInv
  | none =>
      cases hlast : lastCreatedRun db a with
      | some last =>
          by_cases hth : now - last.createdAt < th
          · simp only [hth, if_true]
            simpa using hInv
          · simp only [hth, if_false]
            exact inv_submitProceed db qu pr a now fid reply hInv hfresh
      | none =>
          exact inv_submitProceed db qu pr a now fid reply hInv hfresh

lemma setRunning_id (now : Nat) : ∀ r : RunRow, (setRunning now r).id = r.id :=
  fun _ => rfl

lemma inv_pickup (s : SysState) (id : Nat) (rest : List Nat) (now : Nat)
    (hInv : Inv s) (hq : s.queue = id :: rest) :
    Inv ⟨setRun s.db id (setRunning now), rest, s.processing ++ [id]⟩ := by
  obtain ⟨db, qu, pr⟩ := s
  simp only at hq
  subst hq
  obtain ⟨hids, hqp, hqmem, hpmem⟩ := hInv
  have hf : ∀ r : RunRow, (setRunning now r).id = r.id := setRunning_id now
  have hqp' : (id :: (rest ++ pr)).Nodup := by
    simpa using hqp
  rw [List.nodup_cons] at hqp'
  have hidnotin : id ∉ rest ++ pr := hqp'.1
  refine ⟨?_, ?_, ?_, ?_⟩
  · rw [setRun_map_id hf]
    exact hids
  · have hperm : List.Perm ((rest ++ pr) ++ [id]) (id :: ((rest ++ pr) ++ [])) :=
      List.perm_middle
    show (rest ++ (pr ++ [id])).Nodup
    rw [← List.append_assoc, hperm.nodup_iff, List.nodup_cons, List.append_nil]
    exact ⟨hidnotin, hqp'.2⟩
  · intro j hj
    have hjne : j ≠ id := by
      intro hej
      exact hidnotin (List.mem_append.mpr (Or.inl (hej ▸ hj)))
    rw [stateOf_setRun_ne hf hjne]
    exact hqmem j (List.mem_cons_of_mem _ hj)
  · intro j hj
    rcases List.mem_append.mp hj with hj' | hj'
    · have hjne : j ≠ id := by
        intro hej
        exact hidnotin (List.mem_append.mpr (Or.inr (hej ▸ hj')))
      rw [stateOf_setRun_ne hf hjne]
      exact hpmem j hj'
    · rw [List.mem_singleton] at hj'
      subst hj'
      have hst := hqmem j (List.mem_cons_self _ _)
      unfold stateOf at hst
      cases hfind : db.find? (fun r => r.id == j) with
      | none => rw [hfind] at hst; exact absurd hst (by simp)
      | some r =>
          rw [stateOf_setRun_eq hf, hfind]
          rfl

lemma inv_finish (s : SysState) (id : Nat) (now : Nat) (cause : FinishCause)
    (hInv : Inv s) (hpm : id ∈ s.processing) :
    Inv ⟨setRun s.db id (fun r => finishRow r cause now), s.queue,
      s.processing.erase id⟩ := by
  obtain ⟨db, qu, pr⟩ := s
  obtain ⟨hids, hqp, hqmem, hpmem⟩ := hInv
  have hf : ∀ r : RunRow, (finishRow r cause now).id = r.id :=
    fun r => finishRow_id r cause now
  have hnd := hqp
  rw [List.nodup_append] at hnd
  refine ⟨?_, ?_, ?_, ?_⟩
  · rw [setRun_map_id hf]
    exact hids
  · have hsub : (qu ++ pr.erase id).Sublist (qu ++ pr) :=
      (List.erase_sublist _ _).append_left qu
    exact hqp.sublist hsub
  · intro j hj
    have hjne : j ≠ id := by
      intro hej
      exact hnd.2.2 hj (hej ▸ hpm)
    rw [stateOf_setRun_ne hf hjne]
    exact hqmem j hj
  · intro j hj
    have hj' := (hnd.2.1.mem_erase_iff).mp hj
    rw [stateOf_setRun_ne hf hj'.1]
    exact hpmem j hj'.2

lemma inv_preserved {s s' : SysState} (hInv : Inv s) (h : SysStep s s') :
    Inv s' := by
  cases h with
  | submit a now th fid reply hfresh =>
      exact inv_submit s a now th fid reply hInv hfresh
  | pickup id rest now hq => exact inv_pickup s id rest now hInv hq
  | finish id now cause hpm => exact inv_finish s id now cause hInv hpm

lemma submitRun_db_cases (db : List RunRow) (a now th fid : Nat)
    (reply : QueueReply) :
    (submitRun db a now th fid reply).db = db ∨
    (findBlocking db a = none ∧
      ((submitRun db a now th fid reply).db = db ++ [newRunRow fid a now] ∨
        ∃ msg, (submitRun db a now th fid reply).db =
          db ++ [errorRun (newRunRow fid a now) msg now])) := by
  unfold submitRun
  cases hfb : findBlocking db a with
  | some b => exact Or.inl rfl
  | none =>
      have hproceed :
          (submitProceed db a now fid reply).db = db ++ [newRunRow fid a now] ∨
          ∃ msg, (submitProceed db a now fid reply).db =
            db ++ [errorRun (newRunRow fid a now) msg now] := by
        cases reply with
        | accepted => exact Or.inl rfl
        | full => exact Or.inr ⟨"Execution queue overloaded", rfl⟩
        | failedMsg m => exact Or.inr ⟨"Enqueueing failed: " ++ m, rfl⟩
      cases hlast : lastCreatedRun db a with
      | some last =>
          by_cases hth : now - last.createdAt < th
          · simp only [hth, if_true]
            exact Or.inl (by trivial)
          · simp only [hth, if_false]
            exact Or.inr ⟨by trivial, hproceed⟩
      | none => exact Or.inr ⟨by trivial, hproceed⟩

lemma strictLock_append_terminal (db : List RunRow) (nr : RunRow)
    (hsl : strictLock db) (hterm : nonTerminalB nr = false) :
    strictLock (db ++ [nr]) := by
  intro x
  rw [List.filter_append, List.length_append]
  have h0 : (List.filter (fun r => r.attemptId == x && nonTerminalB r)
      [nr]).length = 0 := by
    simp [List.filter, hterm]
  rw [h0]
  simpa using hsl x

lemma strictLock_append_queued (db : List RunRow) (a fid now : Nat)
    (hfb : findBlocking db a = none) (hsl : strictLock db) :
    strictLock (db ++ [newRunRow fid a now]) := by
  intro x
  rw [List.filter_append, List.length_append]
  by_cases hx : x = a
  · subst hx
    have hnil : db.filter (fun r => r.attemptId == x && nonTerminalB r) = [] := by
      rw [List.filter_eq_nil_iff]
      intro r hr
      have hnone := List.find?_eq_none.mp hfb r hr
      simpa using hnone
    rw [hnil]
    have h1 : (List.filter (fun r => r.attemptId == x && nonTerminalB r)
        [newRunRow fid x now]).length ≤ 1 := by
      simp [List.filter]
      split <;> simp
    simpa using h1
  · have h0 : (List.filter (fun r => r.attemptId == x && nonTerminalB r)
        [newRunRow fid a now]).length = 0 := by
      have hne : ((newRunRow fid a now).attemptId == x) = false := by
        simp [newRunRow]
        exact fun h => hx h.symm
      simp [List.filter, hne]
    rw [h0]
    simpa using hsl x

lemma strictLock_setRun (db : List RunRow) (id : Nat) (f : RunRow → RunRow)
    (hsl : strictLock db)
    (h : ∀ r ∈ db, r.id = id → ∀ x : Nat,
      ((f r).attemptId == x && nonTerminalB (f r)) = true →
        (r.attemptId == x && nonTerminalB r) = true) :
    strictLock (setRun db id f) := by
  intro x
  unfold setRun
  refine le_trans (filter_length_le_of_map db _ _ ?_) (hsl x)
  intro r hr hg
  by_cases hid : r.id = id
  · rw [if_pos hid] at hg
    exact h r hr hid x hg
  · rwa [if_neg hid] at hg

lemma strictLock_preserved {s s' : SysState} (hInv : Inv s)
    (hsl : strictLock s.db) (h : SysStep s s') : strictLock s'.db := by
  obtain ⟨hids, hqp, hqmem, hpmem⟩ := hInv
  cases h with
  | submit a now th fid reply hfresh =>
      show strictLock (submitRun s.db a now th fid reply).db
      rcases submitRun_db_cases s.db a now th fid reply with hdb | ⟨hfb, hcase⟩
      · rw [hdb]
        exact hsl
      · rcases hcase with hdb | ⟨msg, hdb⟩
        · rw [hdb]
          exact strictLock_append_queued s.db a fid now hfb hsl
        · rw [hdb]
          exact strictLock_append_terminal s.db _ hsl rfl
  | pickup id rest now hq =>
      refine strictLock_setRun s.db id _ hsl ?_
      intro r hr hid x hg
      have hstq : r.state = .queued :=
        mem_id_state_of_nodup hids hr hid
          (hqmem id (by rw [hq]; exact List.mem_cons_self _ _))
      have hnt : nonTerminalB r = true := by
        simp [nonTerminalB, hstq]
      have hg' : (r.attemptId == x) = true := by
        simpa [nonTerminalB, setRunning] using hg
      rw [hg', hnt]
      rfl
  | finish id now cause hpm =>
      refine strictLock_setRun s.db id _ hsl ?_
      intro r hr hid x hg
      rw [nonTerminalB_finishRow, Bool.and_false] at hg
      cases hg

lemma step_edges {s s' : SysState} (hInv : Inv s) (h : SysStep s s') :
    ∀ id st st', stateOf s.db id = some st → stateOf s'.db id = some st' →
      st = st' ∨ allowedEdge st st' = true := by
  obtain ⟨hids, hqp, hqmem, hpmem⟩ := hInv
  cases h with
  | submit a now th fid reply hfresh =>
      intro id st st' hb ha
      left
      replace ha : stateOf (submitRun s.db a now th fid reply).db id =
        some st' := ha
      rcases submitRun_db_cases s.db a now th fid reply with hdb | ⟨hfb, hcase⟩
      · rw [hdb, hb] at ha
        exact Option.some_injective _ ha
      · rcases hcase with hdb | ⟨msg, hdb⟩ <;>
        · rw [hdb, stateOf_append _ hb] at ha
          exact Option.some_injective _ ha
  | pickup id0 rest now hq =>
      intro id st st' hb ha
      have hf : ∀ r : RunRow, (setRunning now r).id = r.id := setRunning_id now
      by_cases hid : id = id0
      · subst hid
        have hstq : stateOf s.db id = some .queued :=
          hqmem id (by rw [hq]; exact List.mem_cons_self _ _)
        have hst : st = .queued := by
          rw [hb] at hstq
          exact Option.some_injective _ hstq
        have ha' : stateOf (setRun s.db id (setRunning now)) id = some st' := ha
        rw [stateOf_setRun_eq hf] at ha'
        cases hfind : s.db.find? (fun r => r.id == id) with
        | none =>
            rw [hfind] at ha'
            exact absurd ha' (by simp)
        | some r =>
            rw [hfind] at ha'
            have hst' : st' = .running := (Option.some_injective _ ha').symm
            right
            rw [hst, hst']
            rfl
      · have ha' : stateOf (setRun s.db id0 (setRunning now)) id =
          some st' := ha
        rw [stateOf_setRun_ne hf hid, hb] at ha'
        exact Or.inl (Option.some_injective _ ha')
  | finish id0 now cause hpm =>
      intro id st st' hb ha
      have hf : ∀ r : RunRow, (finishRow r cause now).id = r.id :=
        fun r => finishRow_id r cause now
      by_cases hid : id = id0
      · subst hid
        have hstr : stateOf s.db id = some .running := hpmem id hpm
        have hst : st = .running := by
          rw [hb] at hstr
          exact Option.some_injective _ hstr
        have ha' : stateOf (setRun s.db id (fun r => finishRow r cause now)) id =
          some st' := ha
        rw [stateOf_setRun_eq hf] at ha'
        cases hfind : s.db.find? (fun r => r.id == id) with
        | none =>
            rw [hfind] at ha'
            exact absurd ha' (by simp)
        | some r =>
            rw [hfind] at ha'
            have hst' : st' = (finishRow r cause now).state :=
              (Option.some_injective _ ha').symm
            right
            rw [hst, hst']
            exact allowedEdge_running_finishRow r cause now
      · have ha' : stateOf (setRun s.db id0 (fun r => finishRow r cause now))
            id = some st' := ha
        rw [stateOf_setRun_ne hf hid, hb] at ha'
        exact Or.inl (Option.some_injective _ ha')

lemma stateOf_eq_none_of_find?_none {db : List RunRow} {id : Nat}
    (h : db.find? (fun r => r.id == id) = none) : stateOf db id = none := by
  unfold stateOf
  rw [h]
  rfl

lemma step_no_cancelled {s s' : SysState} (hInv : Inv s) (h : SysStep s s') :
    ∀ id, stateOf s'.db id = some .cancelled →
      stateOf s.db id = some .cancelled := by
  obtain ⟨hids, hqp, hqmem, hpmem⟩ := hInv
  cases h with
  | submit a now th fid reply hfresh =>
      intro id ha
      replace ha : stateOf (submitRun s.db a now th fid reply).db id =
        some .cancelled := ha
      rcases submitRun_db_cases s.db a now th fid reply with hdb | ⟨hfb, hcase⟩
      · rwa [hdb] at ha
      · have hnr : ∀ nr : RunRow, nr.state ≠ .cancelled →
            (submitRun s.db a now th fid reply).db = s.db ++ [nr] →
            stateOf s.db id = some .cancelled := by
          intro nr hnc hdb
          rw [hdb] at ha
          cases hb : stateOf s.db id with
          | some st =>
              rw [stateOf_append _ hb] at ha
              exact ha
          | none =>
              exfalso
              unfold stateOf at hb ha
              cases hfind : s.db.find? (fun r => r.id == id) with
              | some r => rw [hfind] at hb; exact absurd hb (by simp)
              | none =>
                  rw [find?_append_none _ hfind] at ha
                  by_cases hni : nr.id = id
                  · have hbq : (nr.id == id) = true := by simpa using hni
                    rw [show ([nr].find? (fun r => r.id == id)) = some nr by
                      simp [List.find?, hbq]] at ha
                    exact hnc (by simpa using ha)
                  · have hbq : (nr.id == id) = false := by simpa using hni
                    rw [show ([nr].find? (fun r => r.id == id)) = none by
                      simp [List.find?, hbq]] at ha
                    exact absurd ha (by simp)
        rcases hcase with hdb | ⟨msg, hdb⟩
        · exact hnr (newRunRow fid a now) (by simp [newRunRow]) hdb
        · exact hnr (errorRun (newRunRow fid a now) msg now)
            (by simp [errorRun]) hdb
  | pickup id0 rest now hq =>
      intro id ha
      have hf : ∀ r : RunRow, (setRunning now r).id = r.id := setRunning_id now
      by_cases hid : id = id0
      · subst hid
        exfalso
        have ha' : stateOf (setRun s.db id (setRunning now)) id =
          some .cancelled := ha
        rw [stateOf_setRun_eq hf] at ha'
        cases hfind : s.db.find? (fun r => r.id == id) with
        | none => rw [hfind] at ha'; exact absurd ha' (by simp)
        | some r =>
            rw [hfind] at ha'
            simp [setRunning] at ha'
      · have ha' : stateOf (setRun s.db id0 (setRunning now)) id =
          some .cancelled := ha
        rwa [stateOf_setRun_ne hf hid] at ha'
  | finish id0 now cause hpm =>
      intro id ha
      have hf : ∀ r : RunRow, (finishRow r cause now).id = r.id :=
        fun r => finishRow_id r cause now
      by_cases hid : id = id0
      · subst hid
        exfalso
        have ha' : stateOf (setRun s.db id (fun r => finishRow r cause now)) id =
          some .cancelled := ha
        rw [stateOf_setRun_eq hf] at ha'
        cases hfind : s.db.find? (fun r => r.id == id) with
        | none => rw [hfind] at ha'; exact absurd ha' (by simp)
        | some r =>
            rw [hfind] at ha'
            exact (finishRow_state r cause now).2.2 (by simpa using ha')
      · have ha' : stateOf (setRun s.db id0 (fun r => finishRow r cause now))
            id = some .cancelled := ha
        rwa [stateOf_setRun_ne hf hid] at ha'

/-! ## C3 -/

/-- C3: the strict lock — per attempt, at most one `Run` in
`{queued, running}` — is preserved by every step of the (sequentially
interleaved) execution subsystem; and a submit call that finds a
queued/running `Run` for its attempt is rejected with a conflict signal
carrying the blocking `Run`'s id, leaving the `Run` table untouched
(no `Run` is created). -/
theorem C3_strict_lock :
    (∀ s s' : SysState, Inv s → strictLock s.db → SysStep s s' →
      strictLock s'.db) ∧
    (∀ (db : List RunRow) (a now th fid : Nat) (reply : QueueReply)
        (b : RunRow), findBlocking db a = some b →
      submitRun db a now th fid reply =
        ⟨.conflict b.id, db, none⟩) := by
  constructor
  · intro s s' hInv hsl hstep
    exact strictLock_preserved hInv hsl hstep
  · intro db a now th fid reply b hfb
    unfold submitRun
    rw [hfb]

/-- C3 witness: a concrete submit step on a singleton table preserves the
strict lock, and a concrete blocked table yields the conflict rejection
with the blocking id and an unchanged table. -/
theorem C3_witness :
    strictLock (applySubmit ⟨[newRunRow 4 2 0], [4], []⟩ 2 10 2 9
      QueueReply.accepted).db ∧
    submitRun [newRunRow 5 3 0] 3 10 2 9 QueueReply.accepted =
      ⟨.conflict 5, [newRunRow 5 3 0], none⟩ := by
  constructor
  · refine C3_strict_lock.1 ⟨[newRunRow 4 2 0], [4], []⟩ _ ?_ ?_
      (SysStep.submit ⟨[newRunRow 4 2 0], [4], []⟩ 2 10 2 9
        QueueReply.accepted ?_)
    · refine ⟨by decide, by decide, ?_, ?_⟩
      · intro id hid
        have : id = 4 := by simpa using hid
        subst this
        decide
      · intro id hid
        simp at hid
    · intro x
      have h : ([newRunRow 4 2 0].filter
          (fun r => r.attemptId == x && nonTerminalB r)).length ≤ 1 := by
        simp [List.filter]
        split <;> simp
      simpa using h
    · intro r hr
      have : r = newRunRow 4 2 0 := by simpa using hr
      subst this
      decide
  · exact C3_strict_lock.2 [newRunRow 5 3 0] 3 10 2 9 QueueReply.accepted
      (newRunRow 5 3 0) (by decide)

/-! ## C5 -/

/-- The `Run` row left behind by an overload-rejected submit call. -/
def overloadRow (fid a now : Nat) : RunRow :=
  errorRun (newRunRow fid a now) "Execution queue overloaded" now

/-- Exhaustive shape of `submitRun`: conflict rejection, throttle
rejection, or one of the three `submitProceed` results. -/
lemma submitRun_shape (db : List RunRow) (a now th fid : Nat)
    (reply : QueueReply) :
    (∃ b, findBlocking db a = some b ∧
      submitRun db a now th fid reply = ⟨.conflict b.id, db, none⟩) ∨
    (submitRun db a now th fid reply = ⟨.rateLimited th, db, none⟩) ∨
    (reply = .accepted ∧ submitRun db a now th fid reply =
      ⟨.accepted fid, db ++ [newRunRow fid a now], some fid⟩) ∨
    (reply = .full ∧ submitRun db a now th fid reply =
      ⟨.overloaded fid, db ++ [overloadRow fid a now], none⟩) ∨
    (∃ m, reply = .failedMsg m ∧ submitRun db a now th fid reply =
      ⟨.enqueueFailed fid, db ++
        [errorRun (newRunRow fid a now) ("Enqueueing failed: " ++ m) now],
        none⟩) := by
  unfold submitRun
  cases hfb : findBlocking db a with
  | some b => exact Or.inl ⟨b, rfl, rfl⟩
  | none =>
      have hproceed :
          (reply = .accepted ∧ submitProceed db a now fid reply =
            ⟨.accepted fid, db ++ [newRunRow fid a now], some fid⟩) ∨
          (reply = .full ∧ submitProceed db a now fid reply =
            ⟨.overloaded fid, db ++ [overloadRow fid a now], none⟩) ∨
          (∃ m, reply = .failedMsg m ∧ submitProceed db a now fid reply =
            ⟨.enqueueFailed fid, db ++
              [errorRun (newRunRow fid a now)
                ("Enqueueing failed: " ++ m) now], none⟩) := by
        cases reply with
        | accepted => exact Or.inl ⟨rfl, rfl⟩
        | full => exact Or.inr (Or.inl ⟨rfl, rfl⟩)
        | failedMsg m => exact Or.inr (Or.inr ⟨m, rfl, rfl⟩)
      cases hlast : lastCreatedRun db a with
      | some last =>
          by_cases hth : now - last.createdAt < th
          · simp only [hth, if_true]
            exact Or.inr (Or.inl (by trivial))
          · simp only [hth, if_false]
            exact Or.inr (Or.inr hproceed)
      | none => exact Or.inr (Or.inr hproceed)

/-- C5: a submit call creates exactly one `Run` row when it is accepted
or rejected as overloaded (or when the in-process enqueue otherwise
fails) — in the overloaded case that row is marked `error` with a
diagnostic `stderr` and a terminal `finished_at` — and creates zero rows
when rejected with conflict or rate-limited, since those checks run
before any write. -/
theorem C5_run_row_creation (db : List RunRow) (a now th fid : Nat)
    (reply : QueueReply) :
    (∀ bid, (submitRun db a now th fid reply).outcome = .conflict bid →
      (submitRun db a now th fid reply).db = db) ∧
    (∀ w, (submitRun db a now th fid reply).outcome = .rateLimited w →
      (submitRun db a now th fid reply).db = db) ∧
    (∀ rid, (submitRun db a now th fid reply).outcome = .accepted rid →
      (submitRun db a now th fid reply).db.length = db.length + 1) ∧
    (∀ rid, (submitRun db a now th fid reply).outcome = .overloaded rid →
      (submitRun db a now th fid reply).db = db ++ [overloadRow fid a now] ∧
      (overloadRow fid a now).state = .error ∧
      (overloadRow fid a now).stderr = some "Execution queue overloaded" ∧
      (overloadRow fid a now).finishedAt = some now) ∧
    (∀ rid, (submitRun db a now th fid reply).outcome = .enqueueFailed rid →
      (submitRun db a now th fid reply).db.length = db.length + 1) := by
  rcases submitRun_shape db a now th fid reply with
    ⟨b, hfb, heq⟩ | heq | ⟨hr, heq⟩ | ⟨hr, heq⟩ | ⟨m, hr, heq⟩ <;>
    rw [heq] <;>
    refine ⟨fun bid h => ?_, fun w h => ?_, fun rid h => ?_,
      fun rid h => ?_, fun rid h => ?_⟩ <;>
    first
      | rfl
      | (cases h <;> first
          | rfl
          | exact ⟨rfl, rfl, rfl, rfl⟩
          | simp)

/-- C5 witness: the theorem applied at an empty table — an accepted call
adds one row, a queue-full call adds the diagnostic error row. -/
theorem C5_witness :
    (submitRun [] 1 5 2 7 QueueReply.accepted).db.length = 0 + 1 ∧
    (submitRun [] 1 5 2 7 QueueReply.full).db = [] ++ [overloadRow 7 1 5] := by
  constructor
  · exact (C5_run_row_creation [] 1 5 2 7 QueueReply.accepted).2.2.1 7
      (by decide)
  · exact ((C5_run_row_creation [] 1 5 2 7 QueueReply.full).2.2.2.1 7
      (by decide)).1

/-! ## C6 -/

/-- C6 counterexample: an attempt whose last `Run` was created at time 0
submits again at time 1 with a 2-second throttle. The call is rejected
rate-limited, but the signal carries the configured interval `2`
(`Please wait {RUN_ENQUEUE_THROTTLE}s between runs`), not the remaining
wait `2 - 1 = 1`, refuting "includes the remaining wait". -/
theorem C6_counterexample :
    (submitRun [{ newRunRow 1 7 0 with state := RunState.success }]
      7 1 2 9 QueueReply.accepted).outcome = .rateLimited 2 ∧
    2 - (1 - 0) = 1 ∧ (2 : Nat) ≠ 1 := by
  decide

/-- C6 (amended): for an attempt with no queued/running `Run`, a submit
call arriving strictly within the throttle interval of the attempt's
most-recently-created `Run` is rejected rate-limited — the signal
carrying the configured throttle interval, not the remaining wait — and
no `Run` is created; a call arriving once the interval has elapsed is
not rejected by the throttle. -/
theorem C6_throttle_window (db : List RunRow) (a now th fid : Nat)
    (reply : QueueReply) (last : RunRow)
    (hnb : findBlocking db a = none)
    (hlast : lastCreatedRun db a = some last) :
    (now - last.createdAt < th →
      submitRun db a now th fid reply = ⟨.rateLimited th, db, none⟩) ∧
    (¬(now - last.createdAt < th) →
      ∀ w, (submitRun db a now th fid reply).outcome ≠ .rateLimited w) := by
  unfold submitRun
  simp only [hnb, hlast]
  constructor
  · intro hth
    rw [if_pos hth]
  · intro hth w
    rw [if_neg hth]
    cases reply with
    | accepted => simp [submitProceed]
    | full => simp [submitProceed]
    | failedMsg m => simp [submitProceed]

/-- C6 witness: the amended theorem at a concrete table — a submit one
second after the last `Run` is rejected with the configured `2`, and one
five seconds after is not throttled. -/
theorem C6_witness :
    submitRun [{ newRunRow 1 7 0 with state := RunState.success }] 7 1 2 9
      QueueReply.accepted =
      ⟨.rateLimited 2, [{ newRunRow 1 7 0 with state := RunState.success }],
        none⟩ ∧
    ∀ w, (submitRun [{ newRunRow 1 7 0 with state := RunState.success }]
      7 5 2 9 QueueReply.accepted).outcome ≠ .rateLimited w := by
  have h1 := C6_throttle_window
    [{ newRunRow 1 7 0 with state := RunState.success }] 7 1 2 9
    QueueReply.accepted { newRunRow 1 7 0 with state := RunState.success }
    (by decide) (by decide)
  have h2 := C6_throttle_window
    [{ newRunRow 1 7 0 with state := RunState.success }] 7 5 2 9
    QueueReply.accepted { newRunRow 1 7 0 with state := RunState.success }
    (by decide) (by decide)
  exact ⟨h1.1 (by decide), h2.2 (by decide)⟩

/-! ## C7 -/

/-- C7: every step of the execution subsystem preserves well-formedness
and moves every `Run`'s observed state only along the forward edges
`queued → running → {success|error|timeout|compilation_error}` or
`queued → error`; every allowed edge leaves a non-terminal state (so no
terminal state is ever revisited), and no step ever transitions a `Run`
into `cancelled`. -/
theorem C7_forward_only (s s' : SysState) (hInv : Inv s)
    (hstep : SysStep s s') :
    Inv s' ∧
    (∀ id st st', stateOf s.db id = some st → stateOf s'.db id = some st' →
      st = st' ∨ allowedEdge st st' = true) ∧
    (∀ st st' : RunState, allowedEdge st st' = true →
      st.isTerminal = false) ∧
    (∀ id, stateOf s'.db id = some .cancelled →
      stateOf s.db id = some .cancelled) := by
  refine ⟨inv_preserved hInv hstep, step_edges hInv hstep, ?_,
    step_no_cancelled hInv hstep⟩
  intro st st' he
  cases st <;> cases st' <;> simp_all [allowedEdge, RunState.isTerminal]

/-- C7 witness: the theorem at a concrete pickup step — the picked-up
run cannot be observed `cancelled` afterwards. -/
theorem C7_witness :
    stateOf (setRun [newRunRow 1 7 0] 1 (setRunning 4)) 1 ≠
      some RunState.cancelled := by
  have hstep := SysStep.pickup ⟨[newRunRow 1 7 0], [1], []⟩ 1 [] 4 rfl
  have h := C7_forward_only ⟨[newRunRow 1 7 0], [1], []⟩
    ⟨setRun [newRunRow 1 7 0] 1 (setRunning 4), [], [] ++ [1]⟩
    (by unfold Inv; decide) hstep
  intro hc
  have h2 := h.2.2.2 1 hc
  have h3 : stateOf [newRunRow 1 7 0] 1 = some RunState.queued := by decide
  rw [h3] at h2
  exact absurd h2 (by decide)

end CogniCode
